import Mathlib

/-!
Verification development for the `crawlerLEAP` web crawler
(`crawlerLEAP/crawler.py`, `crawlerLEAP/urlconversion.py`).

The Python source is shallowly embedded:
* Python `str` operations are modelled as structurally recursive functions
  over `String.data` (`List Char`), so every definition evaluates by `decide`.
* `urllib.parse.urlparse` / `geturl` / `urljoin` are modelled after the
  CPython reference implementation restricted to the component split used by
  the crawler (the rarely-used `params` component and IPv6-bracket
  validation are not modelled; the crawler never exercises them).
* External collaborators (the Selenium renderer, the PDF extractor, the
  file system) are an explicit `Oracle`: a deterministic environment the
  crawl loop queries.  The crawl loop itself (`crawl_site_selenium`) is a
  small-step state machine with a ghost trace of per-iteration records, so
  scheduling/ordering properties can be stated about a whole run.
* Python exceptions that the crawler does not catch (`NameError` from the
  missing `hashlib` import, `OSError` from file writes) are modelled with an
  explicit `raise` outcome that aborts the run, exactly as an uncaught
  exception aborts `crawl_site_selenium`.
-/

/-! ## Python string primitives (over `List Char`) -/

/-- Python `str.split(sep)` for a one-character separator, on `List Char`.
`"".split(c)` gives `[""]`, matching Python. -/
def splitCharL (c : Char) : List Char → List (List Char)
  | [] => [[]]
  | x :: xs =>
    let r := splitCharL c xs
    if x = c then [] :: r
    else
      match r with
      | [] => [[x]]
      | y :: ys => (x :: y) :: ys

/-- Python `str.split(sep)` for a one-character separator. -/
def splitChar (c : Char) (s : String) : List String :=
  (splitCharL c s.data).map String.mk

/-- Python `str.split(sep, 1)` for a one-character separator: splits at the
first occurrence, `none` when the separator is absent. -/
def splitFirstL (c : Char) : List Char → Option (List Char × List Char)
  | [] => none
  | x :: xs =>
    if x = c then some ([], xs)
    else (splitFirstL c xs).map (fun p => (x :: p.1, p.2))

/-- Python `str.split(sep, 1)` for a one-character separator, on `String`. -/
def splitFirst (c : Char) (s : String) : Option (String × String) :=
  (splitFirstL c s.data).map (fun p => (String.mk p.1, String.mk p.2))

/-- Python `str.replace(old, new)` for a one-character `old`. -/
def replaceCharL (c : Char) (r : List Char) : List Char → List Char
  | [] => []
  | x :: xs => if x = c then r ++ replaceCharL c r xs else x :: replaceCharL c r xs

/-- Python `str.replace(old, new)` for a one-character `old`, on `String`. -/
def replaceChar (c : Char) (r : String) (s : String) : String :=
  ⟨replaceCharL c r.data s.data⟩

/-- ASCII lower-casing of one character (what Python `str.lower` does on the
ASCII strings the crawler handles). -/
def lowerChar (c : Char) : Char :=
  if 'A' ≤ c ∧ c ≤ 'Z' then Char.ofNat (c.toNat + 32) else c

/-- Python `str.lower()` (ASCII). -/
def pyLower (s : String) : String := ⟨s.data.map lowerChar⟩

/-- Python whitespace for `str.strip()` / truthiness of stripped strings. -/
def isPySpace (c : Char) : Bool :=
  c == ' ' || c == '\t' || c == '\n' || c == '\r' || c == '\x0b' || c == '\x0c'

/-- Python `str.strip()`. -/
def pyStrip (s : String) : String :=
  ⟨((s.data.dropWhile isPySpace).reverse.dropWhile isPySpace).reverse⟩

/-- Python `str.rstrip(c)` for a one-character argument: removes every
trailing occurrence of `c`. -/
def pyRstripChar (c : Char) (s : String) : String :=
  ⟨(s.data.reverse.dropWhile (· == c)).reverse⟩

/-- Python `sep.join(parts)`. -/
def pyJoin (sep : String) : List String → String
  | [] => ""
  | [x] => x
  | x :: xs => x ++ sep ++ pyJoin sep xs

/-- Python `c in s` for a single character. -/
def pyContainsChar (c : Char) (s : String) : Bool := s.data.contains c

/-- Python `s[:n]`. -/
def pyTake (n : Nat) (s : String) : String := ⟨s.data.take n⟩

/-- Python `s[n:]`. -/
def pyDrop (n : Nat) (s : String) : String := ⟨s.data.drop n⟩

/-- Python `len(s)` (code points; the crawler handles ASCII only). -/
def pyLen (s : String) : Nat := s.data.length

/-- Python `s.endswith(c)` for a single character. -/
def pyEndsWithChar (c : Char) (s : String) : Bool := s.data.getLast? == some c

/-! ## `urllib.parse` model

`urlparse` / `urlunparse` (`geturl`) / `urljoin` as the crawler uses them,
translated from the CPython reference implementation of `urlsplit`,
`urlunsplit` and `urljoin`.  The `params` component is not modelled (none of
the crawler's URLs carry `;` parameters), and the `ValueError` CPython raises
on unbalanced IPv6 brackets is not modelled. -/

/-- Components of a parsed URL (CPython `SplitResult` without `params`). -/
structure SplitResult where
  scheme : String
  netloc : String
  path : String
  query : String
  fragment : String
deriving DecidableEq

/-- Characters CPython allows inside a URL scheme. -/
def isSchemeChar (c : Char) : Bool :=
  c.isAlpha || c.isDigit || c == '+' || c == '-' || c == '.'

/-- CPython `_splitnetloc`: the netloc runs until the first of `/`, `?`, `#`. -/
def splitNetloc (rest : String) : String × String :=
  (⟨rest.data.takeWhile (fun c => !(c == '/' || c == '?' || c == '#'))⟩,
   ⟨rest.data.dropWhile (fun c => !(c == '/' || c == '?' || c == '#'))⟩)

/-- CPython `urllib.parse.urlsplit` (used by the crawler as `urlparse`):
extract the scheme when the prefix before the first `:` is a valid scheme,
then the `//netloc`, then the fragment after the first `#`, then the query
after the first `?`. -/
def urlparse (url : String) : SplitResult :=
  let (scheme, rest) :=
    match splitFirst ':' url with
    | some (pre, post) =>
      if pre ≠ "" ∧ (pyTake 1 pre).data.all Char.isAlpha ∧ pre.data.all isSchemeChar then
        (pyLower pre, post)
      else ("", url)
    | none => ("", url)
  let (netloc, rest) :=
    if (pyTake 2 rest) = "//" then splitNetloc (pyDrop 2 rest) else ("", rest)
  let (rest, fragment) :=
    match splitFirst '#' rest with
    | some (a, b) => (a, b)
    | none => (rest, "")
  let (path, query) :=
    match splitFirst '?' rest with
    | some (a, b) => (a, b)
    | none => (rest, "")
  ⟨scheme, netloc, path, query, fragment⟩

/-- CPython `urlunsplit`, i.e. `ParseResult.geturl` for the components the
crawler uses. -/
def geturl (p : SplitResult) : String :=
  let url := p.path
  let url :=
    if p.netloc ≠ "" ∨ (url ≠ "" ∧ pyTake 2 url = "//") then
      "//" ++ p.netloc ++ (if url ≠ "" ∧ pyTake 1 url ≠ "/" then "/" ++ url else url)
    else url
  let url := if p.scheme ≠ "" then p.scheme ++ ":" ++ url else url
  let url := if p.query ≠ "" then url ++ "?" ++ p.query else url
  if p.fragment ≠ "" then url ++ "#" ++ p.fragment else url

/-- CPython `uses_relative` scheme list. -/
def uses_relative : List String :=
  ["", "ftp", "http", "gopher", "nntp", "imap", "wais", "file", "https",
   "shttp", "mms", "prospero", "rtsp", "rtspu", "sftp", "svn", "svn+ssh",
   "ws", "wss"]

/-- CPython `uses_netloc` scheme list. -/
def uses_netloc : List String :=
  ["", "ftp", "http", "gopher", "nntp", "telnet", "imap", "wais", "file",
   "mms", "https", "shttp", "snews", "prospero", "rtsp", "rtspu", "rsync",
   "svn", "svn+ssh", "sftp", "nfs", "git", "git+ssh", "ws", "wss",
   "itms-services"]

/-- `urlparse` with a default scheme (CPython `urlsplit(url, scheme=d)`). -/
def urlparseD (url : String) (default : String) : SplitResult :=
  let p := urlparse url
  if p.scheme = "" then
    { scheme := default, netloc := p.netloc, path := p.path,
      query := p.query, fragment := p.fragment }
  else p

/-- CPython relative-path segment resolution: `..` pops, `.` is dropped. -/
def mergeSegments (acc : List String) : List String → List String
  | [] => acc
  | seg :: rest =>
    if seg = ".." then mergeSegments acc.dropLast rest
    else if seg = "." then mergeSegments acc rest
    else mergeSegments (acc ++ [seg]) rest

/-- CPython `segments[1:-1] = filter(None, segments[1:-1])`. -/
def filterInterior : List String → List String
  | [] => []
  | [x] => [x]
  | x :: xs => x :: (xs.dropLast.filter (fun s => s ≠ "")) ++ [xs.getLastD ""]

/-- CPython `urllib.parse.urljoin`. -/
def urljoin (base url : String) : String :=
  if base = "" then url
  else if url = "" then base
  else
    let b := urlparse base
    let u := urlparseD url b.scheme
    if u.scheme ≠ b.scheme ∨ u.scheme ∉ uses_relative then url
    else if u.scheme ∈ uses_netloc ∧ u.netloc ≠ "" then geturl u
    else
      let netloc := if u.scheme ∈ uses_netloc then b.netloc else u.netloc
      if u.path = "" then
        geturl { scheme := u.scheme, netloc := netloc, path := b.path,
                 query := if u.query = "" then b.query else u.query,
                 fragment := u.fragment }
      else
        let bp := splitChar '/' b.path
        let base_parts := if bp.getLastD "" ≠ "" then bp.dropLast else bp
        let segments :=
          if pyTake 1 u.path = "/" then splitChar '/' u.path
          else filterInterior (base_parts ++ splitChar '/' u.path)
        let resolved := mergeSegments [] segments
        let resolved :=
          if segments.getLastD "" = ".." ∨ segments.getLastD "" = "." then
            resolved ++ [""]
          else resolved
        let joined := pyJoin "/" resolved
        geturl { scheme := u.scheme, netloc := netloc,
                 path := if joined = "" then "/" else joined,
                 query := u.query, fragment := u.fragment }

/-! ## `urlconversion.py` -/

/-- Uncaught Python exceptions the crawler can die with. -/
inductive PyExn where
  | nameError : PyExn
  | ioError : String → PyExn
deriving DecidableEq

/-- `urlconversion.encode_url_to_filename(url, extension)`.
`urlconversion.py` references `hashlib.md5` in its long-URL branch but never
imports `hashlib`, so reaching that branch raises `NameError` in Python; the
model returns `.error .nameError` there.  The Python default argument
`extension="html"` is passed explicitly by callers of this model. -/
def encode_url_to_filename (url : String) (extension : String) : Except PyExn String :=
  let parsed_url := urlparse url
  let scheme := if parsed_url.scheme = "https" then "https-" else "http-"
  let netloc := replaceChar '.' "!" (replaceChar ':' "_" parsed_url.netloc)
  let path := replaceChar '/' "--" parsed_url.path
  let query := replaceChar '&' "-" (replaceChar '=' "~" parsed_url.query)
  let path_query := if query ≠ "" then path ++ "--q--" ++ query else path
  if pyLen path_query > 255 then
    Except.error PyExn.nameError
  else
    Except.ok (pyTake 255 (scheme ++ netloc ++ "-" ++ path_query ++ "." ++ extension))

/-! ## `crawler.py`: pure helpers -/

/-- `crawler.ALLOWED_EXTENSIONS`. -/
def ALLOWED_EXTENSIONS : List String :=
  ["html", "pdf", "md", "txt", "csv", "xls", "xlsx", "doc", "docx"]

/-- `crawler.get_allowed_extension_from_url`. -/
def get_allowed_extension_from_url (url : String) : Option String :=
  let parsed_url := urlparse url
  let filename := (splitChar '/' parsed_url.path).getLastD ""
  if pyContainsChar '.' filename then
    let ext := pyLower ((splitChar '.' filename).getLastD "")
    if ext ∈ ALLOWED_EXTENSIONS then some ext else none
  else none

/-- `crawler.normalize_url`: drop the fragment, turn an empty path into `/`,
`rstrip` every trailing `/` from a non-root path, lower-case the whole
reassembled URL. -/
def normalize_url (url : String) : String :=
  let parsed := urlparse url
  let path := parsed.path
  let path :=
    if path = "" then "/"
    else if path ≠ "/" ∧ pyEndsWithChar '/' path then pyRstripChar '/' path
    else path
  pyLower (geturl { scheme := parsed.scheme, netloc := parsed.netloc,
                    path := path, query := parsed.query, fragment := "" })

/-! ## `crawler.py`: the crawl loop as a state machine

`crawl_site_selenium(driver, start_url, max_depth, max_pages, output_dir)`
is a `while` loop over a FIFO queue.  External effects are collected in an
`Oracle`:
* `fetch` models `driver.get` + `BeautifulSoup` script/style stripping +
  `soup.get_text(separator="\n")` (the text before line cleanup) together
  with the `href` attributes of the anchors found in the page; a `.err msg`
  models the caught Selenium exception.
* `pdfText` models `scrape_pdf`, which catches all of its own exceptions and
  always returns a string.
* `writeOk` tells whether `write_text_file` succeeds for a path; a failing
  write raises `OSError`, which `crawl_site_selenium` does not catch. -/

/-- Result of rendering one URL. -/
inductive FetchResult where
  | ok : String → List String → FetchResult
  | err : String → FetchResult
deriving DecidableEq

/-- Deterministic environment of one crawl. -/
structure Oracle where
  fetch : String → FetchResult
  pdfText : String → String
  writeOk : String → Bool

/-- Crawl configuration: the arguments of `crawl_site_selenium`. -/
structure Config where
  start_url : String
  max_depth : Int
  max_pages : Int
  output_dir : String

/-- Ghost record of one loop iteration: the dequeued entry, whether the
depth check discarded it, the text recorded into `visited` (if any), the
files written and the `(url, depth)` entries appended to the queue. -/
structure IterRec where
  url : String
  depth : Int
  skipped : Bool
  recorded : Option String
  persisted : List String
  enqueued : List (String × Int)
deriving DecidableEq

/-- The mutable state of `crawl_site_selenium`, plus the ghost `trace`. -/
structure CrawlState where
  visited : List (String × String)
  to_visit : List (String × Int)
  normalized_urls : List String
  trace : List IterRec
deriving DecidableEq

/-- Python dict assignment `m[k] = v`: overwrite in place if the key exists
(insertion order kept), else append. -/
def dictInsert (m : List (String × String)) (k v : String) : List (String × String) :=
  if m.any (fun p => p.1 == k) then
    m.map (fun p => if p.1 == k then (k, v) else p)
  else m ++ [(k, v)]

/-- State before the loop: `visited = {}`, `to_visit = [(start_url, 0)]`,
`normalized_urls = {normalize_url(start_url)}` (lines 119-126). -/
def initState (cfg : Config) : CrawlState :=
  ⟨[], [(cfg.start_url, 0)], [normalize_url cfg.start_url], []⟩

/-- Output of the link-harvest loop. -/
structure ELOut where
  queue : List (String × Int)
  normSet : List String
  enq : List (String × Int)

/-- Lines 195-212: for each `href`, resolve against the current URL,
normalize, and enqueue at `current_depth + 1` only if the netloc equals the
start domain, the canonical key is new, and `len(visited) < max_pages`
(`visitedLen` is the dict size after line 191, unchanged inside this loop). -/
def enqueueLinks (start_domain : String) (max_pages : Int) (visitedLen : Nat)
    (current_url : String) (current_depth : Int) :
    List String → List (String × Int) → List String → List (String × Int) → ELOut
  | [], queue, normSet, enq => ⟨queue, normSet, enq⟩
  | href :: hs, queue, normSet, enq =>
    let next_url := urljoin current_url href
    let normalized_next_url := normalize_url next_url
    if (urlparse next_url).netloc = start_domain ∧ normalized_next_url ∉ normSet ∧
        (visitedLen : Int) < max_pages then
      enqueueLinks start_domain max_pages visitedLen current_url current_depth hs
        (queue ++ [(next_url, current_depth + 1)])
        (normSet ++ [normalized_next_url])
        (enq ++ [(next_url, current_depth + 1)])
    else
      enqueueLinks start_domain max_pages visitedLen current_url current_depth hs
        queue normSet enq

/-- What one loop iteration decides to do with the dequeued entry. -/
inductive IterPlan where
  | skip : IterPlan
  | record : String → List String → Option (List String) → IterPlan
  | raise : PyExn → IterPlan
deriving DecidableEq

/-- `os.path.join(output_dir, filename)` for the relative names the encoder
produces. -/
def pathJoin (dir fname : String) : String := dir ++ "/" ++ fname

/-- Line 176 diagnostic. -/
def warningNoText : String := "Warning: No visible text extracted from this HTML page."

/-- Lines 172-173: strip each line of `get_text` output and keep the
non-empty ones (Python `splitlines` modelled on `\n`, the separator
`get_text` itself inserts). -/
def cleanLines (text : String) : String :=
  pyJoin "\n" (((splitChar '\n' text).map pyStrip).filter (fun l => l ≠ ""))

/-- Encode the filename, `os.path.join` it under the output directory and
attempt the write (lines 146-148 / 180-188): `raise` on the encoder's
missing-import `NameError` or on a failing `write_text_file`, otherwise a
`record` of the text with the written file. -/
def planWrite (ora : Oracle) (cfg : Config) (encRes : Except PyExn String)
    (text : String) (links : Option (List String)) : IterPlan :=
  match encRes with
  | Except.error e => IterPlan.raise e
  | Except.ok fname =>
    if ora.writeOk (pathJoin cfg.output_dir fname) then
      IterPlan.record text [pathJoin cfg.output_dir fname] links
    else IterPlan.raise (PyExn.ioError (pathJoin cfg.output_dir fname))

/-- Lines 140-212 for an entry that passed the depth check: classify the URL,
extract (PDF via `scrape_pdf`, otherwise Selenium + soup), then encode the
filename and write the file (`planWrite`).  `record text persisted none`
means "record and continue, no link harvest" (PDF and Selenium-error paths);
`record text persisted (some hrefs)` is the HTML path whose links feed the
frontier; `raise` is an uncaught exception (missing `hashlib` import inside
`encode_url_to_filename`, or a failing `write_text_file`). -/
def planFetch (ora : Oracle) (cfg : Config) (current_url : String) : IterPlan :=
  if get_allowed_extension_from_url current_url = some "pdf" then
    planWrite ora cfg (encode_url_to_filename current_url "pdf")
      (ora.pdfText current_url) none
  else
    match ora.fetch current_url with
    | FetchResult.err msg =>
      IterPlan.record ("Error loading " ++ current_url ++ " with Selenium: " ++ msg) [] none
    | FetchResult.ok rawText hrefs =>
      planWrite ora cfg
        (match get_allowed_extension_from_url current_url with
         | some e =>
           if e ≠ "pdf" then encode_url_to_filename current_url e
           else encode_url_to_filename current_url "html"
         | none => encode_url_to_filename current_url "html")
        (if pyStrip (cleanLines rawText) = "" then warningNoText
         else cleanLines rawText)
        (some hrefs)

/-- One loop iteration: line 135's depth check, then `planFetch`. -/
def planIter (ora : Oracle) (cfg : Config) (current_url : String) (current_depth : Int) : IterPlan :=
  if current_depth > cfg.max_depth then IterPlan.skip
  else planFetch ora cfg current_url

/-- Result of one small step: continue with the new state, or abort the
whole crawl with an uncaught exception (the state records what had happened
up to the abort). -/
inductive StepResult where
  | next : CrawlState → StepResult
  | raise : PyExn → CrawlState → StepResult
deriving DecidableEq

/-- Apply an `IterPlan` to the state whose queue head was `(u, d)` and tail
`rest`, mirroring the loop body's state updates (the ghost trace gets one
`IterRec`). -/
def applyPlan (cfg : Config) (s : CrawlState) (u : String) (d : Int)
    (rest : List (String × Int)) : IterPlan → StepResult
  | IterPlan.skip =>
    StepResult.next ⟨s.visited, rest, s.normalized_urls,
      s.trace ++ [⟨u, d, true, none, [], []⟩]⟩
  | IterPlan.raise e =>
    StepResult.raise e ⟨s.visited, rest, s.normalized_urls,
      s.trace ++ [⟨u, d, false, none, [], []⟩]⟩
  | IterPlan.record text per none =>
    StepResult.next ⟨dictInsert s.visited u text, rest, s.normalized_urls,
      s.trace ++ [⟨u, d, false, some text, per, []⟩]⟩
  | IterPlan.record text per (some hrefs) =>
    let visited' := dictInsert s.visited u text
    let out := enqueueLinks ((urlparse cfg.start_url).netloc) cfg.max_pages
      visited'.length u d hrefs rest s.normalized_urls []
    StepResult.next ⟨visited', out.queue, out.normSet,
      s.trace ++ [⟨u, d, false, some text, per, out.enq⟩]⟩

/-- One iteration of the `while` loop (lines 131-212): pop the queue head
and run the body. -/
def step (ora : Oracle) (cfg : Config) (s : CrawlState) : StepResult :=
  match s.to_visit with
  | [] => StepResult.next s
  | (u, d) :: rest => applyPlan cfg s u d rest (planIter ora cfg u d)

/-- Line 131 loop condition: `while to_visit and len(visited) < max_pages`. -/
def loopCond (cfg : Config) (s : CrawlState) : Bool :=
  !s.to_visit.isEmpty && decide ((s.visited.length : Int) < cfg.max_pages)

/-- Status of a run after a number of steps. -/
inductive Outcome where
  | running : CrawlState → Outcome
  | finished : CrawlState → Outcome
  | raised : PyExn → CrawlState → Outcome
deriving DecidableEq

/-- The crawl state carried by an `Outcome`. -/
def stateOf : Outcome → CrawlState
  | Outcome.running s => s
  | Outcome.finished s => s
  | Outcome.raised _ s => s

/-- Whether the loop exited normally. -/
def isFinished : Outcome → Bool
  | Outcome.finished _ => true
  | _ => false

/-- Run the loop for at most `n` iterations: check the loop condition, then
step.  `finished` and `raised` are absorbing. -/
def runN (ora : Oracle) (cfg : Config) : Nat → Outcome
  | 0 => Outcome.running (initState cfg)
  | n + 1 =>
    match runN ora cfg n with
    | Outcome.running s =>
      if loopCond cfg s then
        match step ora cfg s with
        | StepResult.next s' => Outcome.running s'
        | StepResult.raise e s' => Outcome.raised e s'
      else Outcome.finished s
    | o => o

/-- `crawl_site_selenium` as a whole: the returned `visited` dict, or the
uncaught exception.  `fuel` bounds the number of iterations inspected; every
theorem below holds for every `fuel`. -/
def crawl_site_selenium (ora : Oracle) (cfg : Config) (fuel : Nat) :
    Except (PyExn × CrawlState) (List (String × String)) :=
  match runN ora cfg fuel with
  | Outcome.raised e s => Except.error (e, s)
  | o => Except.ok (stateOf o).visited

/-- Whether the crawl returned normally. -/
def isCrawlOk : Except (PyExn × CrawlState) (List (String × String)) → Bool
  | Except.ok _ => true
  | Except.error _ => false

/-- A crawl state is reachable when some number of steps of the loop
produces it. -/
def Reachable (ora : Oracle) (cfg : Config) (s : CrawlState) : Prop :=
  ∃ n, stateOf (runN ora cfg n) = s

/-! ## `crawler.py main()`: export shape -/

/-- Lines 275-281: the serialized object built for one `(url, text)` pair.
The record is an ordered key/value list, as a JSON object literal. -/
def toWeaviateObject (url text : String) : List (String × String) :=
  [("class", "WebPage"), ("title", ""), ("videoId", ""),
   ("url", url), ("transcript", text)]

/-- Lines 272-282: one record per entry of the merged crawl dict. -/
def weaviate_objects (all_scraped : List (String × String)) : List (List (String × String)) :=
  all_scraped.map (fun p => toWeaviateObject p.1 p.2)

/-! ## Trace observations -/

/-- All entries enqueued during a trace, in order. -/
def enqueuedOf : List IterRec → List (String × Int)
  | [] => []
  | it :: t => it.enqueued ++ enqueuedOf t

/-- Canonical key of a dequeued iteration. -/
def iterKey (it : IterRec) : String := normalize_url it.url

/-- Canonical key of a queue entry. -/
def entryKey (e : String × Int) : String := normalize_url e.1

/-- Canonical keys of everything dequeued so far followed by everything
still queued. -/
def keysOf (s : CrawlState) : List String :=
  s.trace.map iterKey ++ s.to_visit.map entryKey

/-- Depths of everything dequeued so far followed by everything still
queued. -/
def depthsOf (s : CrawlState) : List Int :=
  s.trace.map IterRec.depth ++ s.to_visit.map Prod.snd

/-- How many times a raw URL was enqueued during a trace. -/
def countEnqueues (t : List IterRec) (u : String) : Nat :=
  ((enqueuedOf t).filter (fun e => e.1 == u)).length

/-! ## Spec-side canonicalizer (for claim C7)

Spec section 4.1 describes the URL Canonicalizer in words; these definitions
follow those words so the code's `normalize_url` can be compared against
them. -/

/-- Modelled from the spec (section 4.1), word for word: strip the fragment
component; set an empty path to `/`; strip ONE trailing `/` from any
non-root path; lower-case the entire result. -/
def canonicalizeSpecOneSlash (url : String) : String :=
  let p := urlparse url
  let path :=
    if p.path = "" then "/"
    else if p.path ≠ "/" ∧ pyEndsWithChar '/' p.path then pyTake (pyLen p.path - 1) p.path
    else p.path
  pyLower (geturl { scheme := p.scheme, netloc := p.netloc, path := path,
                    query := p.query, fragment := "" })

/-- The spec's canonicalizer amended to what the code does: strip EVERY
trailing `/` from a non-root path (Python `rstrip`), the other three
transformation steps as the spec states them. -/
def canonicalizeSpecAllSlashes (url : String) : String :=
  let p := urlparse url
  let path0 := if p.path = "" then "/" else p.path
  let path1 := if path0 ≠ "/" ∧ pyEndsWithChar '/' path0 then pyRstripChar '/' path0 else path0
  pyLower (geturl { scheme := p.scheme, netloc := p.netloc, path := path1,
                    query := p.query, fragment := "" })

/-! ## Concrete crawl environments

Small deterministic environments used to instantiate the theorems below.
`oraMain`/`cfgMain` is a crawl of `https://a.com` with scope host `a.com`:
the seed page links to an out-of-scope subdomain, an out-of-scope foreign
host and two in-scope pages; page `y` links one hop deeper than
`max_depth`; page `p2` rediscovers `y` and links another too-deep page. -/

/-- Environment where every page renders with fixed text and no links. -/
def oraTriv : Oracle :=
  ⟨fun _ => FetchResult.ok "text" [], fun _ => "pdftext", fun _ => true⟩

/-- Renderer behavior for the main scenario. -/
def mainFetch (u : String) : FetchResult :=
  if u = "https://a.com/" then
    FetchResult.ok "home"
      ["https://sub.a.com/y", "https://b.com/y", "https://a.com/y", "https://a.com/p2"]
  else if u = "https://a.com/y" then
    FetchResult.ok "ytext" ["https://a.com/z"]
  else if u = "https://a.com/p2" then
    FetchResult.ok "p2text" ["https://a.com/y", "https://a.com/w"]
  else
    FetchResult.ok "leaf" []

/-- Main scenario environment. -/
def oraMain : Oracle := ⟨mainFetch, fun _ => "pdftext", fun _ => true⟩

/-- Main scenario configuration: depth bound 1, page bound 10. -/
def cfgMain : Config := ⟨"https://a.com/", 1, 10, "out"⟩

/-- Configuration with a negative page bound (claim C1). -/
def cfgNegPages : Config := ⟨"https://a.com/", 5, -1, "out"⟩

/-- Configuration with a different negative page bound (claim C9). -/
def cfgNegPages9 : Config := ⟨"https://s.com/", 3, -2, "out"⟩

/-- Configuration whose seed URL is not a URL at all (claim C9). -/
def cfgBadSeed : Config := ⟨"not a url", 5, 5, "out"⟩

/-- Environment whose renderer always fails (the invalid seed cannot be
loaded). -/
def oraBadSeed : Oracle :=
  ⟨fun _ => FetchResult.err "boom", fun _ => "pdftext", fun _ => true⟩

/-- Environment whose file store rejects every write (claim C5). -/
def oraWriteFail : Oracle :=
  ⟨fun _ => FetchResult.ok "text" [], fun _ => "pdftext", fun _ => false⟩

/-- Configuration for the write-failure run (claim C5). -/
def cfgWriteFail : Config := ⟨"https://x.com/", 3, 5, "o"⟩

/-- A URL whose encoded path exceeds 255 characters (claim C4). -/
def longUrl : String := "https://a.com/" ++ String.mk (List.replicate 300 'a')

/-! ## Helper lemmas -/

theorem enqueuedOf_append (t1 t2 : List IterRec) :
    enqueuedOf (t1 ++ t2) = enqueuedOf t1 ++ enqueuedOf t2 := by
  induction t1 with
  | nil => simp [enqueuedOf]
  | cons it t ih => simp [enqueuedOf, ih]

theorem dictInsert_length_le (m : List (String × String)) (k v : String) :
    (dictInsert m k v).length ≤ m.length + 1 := by
  unfold dictInsert
  split
  · simp
  · simp

theorem nodup_append_ne {α : Type} {l1 l2 : List α} (h : (l1 ++ l2).Nodup) {a b : α}
    (ha : a ∈ l1) (hb : b ∈ l2) : a ≠ b := by
  intro heq
  subst heq
  exact (List.disjoint_of_nodup_append h) ha hb

theorem append_singleton_decomp {α : Type} (t1 : List α) (a : α) (t2 tr : List α) (b : α)
    (h : t1 ++ a :: t2 = tr ++ [b]) :
    (t2 = [] ∧ a = b ∧ t1 = tr) ∨ ∃ t2p, t2 = t2p ++ [b] ∧ tr = t1 ++ a :: t2p := by
  rcases List.eq_nil_or_concat t2 with h2 | ⟨l, x, hlx⟩
  · subst h2
    have h' : t1 ++ [a] = tr ++ [b] := by simpa using h
    have hlen : ([a] : List α).length = ([b] : List α).length := rfl
    obtain ⟨he1, he2⟩ := List.append_inj' h' hlen
    exact Or.inl ⟨rfl, by simpa using he2, he1⟩
  · rw [List.concat_eq_append] at hlx
    subst hlx
    right
    have h' : (t1 ++ a :: l) ++ [x] = tr ++ [b] := by simpa using h
    have hlen : ([x] : List α).length = ([b] : List α).length := rfl
    obtain ⟨he1, he2⟩ := List.append_inj' h' hlen
    have hxb : x = b := by simpa using he2
    subst hxb
    exact ⟨l, rfl, he1.symm⟩

theorem pairwise_le_of_const (l : List Int) (c : Int) (h : ∀ x ∈ l, x = c) :
    l.Pairwise (· ≤ ·) := by
  induction l with
  | nil => exact List.Pairwise.nil
  | cons x xs ih =>
    refine List.Pairwise.cons ?_ (ih (fun y hy => h y (List.mem_cons_of_mem _ hy)))
    intro y hy
    rw [h x (List.mem_cons_self _ _), h y (List.mem_cons_of_mem _ hy)]

/-- The link-harvest loop appends some block `new` of entries to the queue,
their canonical keys to the normalized set, and the same block to the ghost
list; every appended entry is at depth `cd + 1` with netloc `sd`, and the
extended normalized set stays duplicate-free. -/
theorem enqueueLinks_spec (sd : String) (mp : Int) (vl : Nat) (cu : String) (cd : Int) :
    ∀ (hrefs : List String) (queue : List (String × Int)) (normSet : List String)
      (enq : List (String × Int)), normSet.Nodup →
      ∃ new : List (String × Int),
        enqueueLinks sd mp vl cu cd hrefs queue normSet enq =
          ⟨queue ++ new, normSet ++ new.map entryKey, enq ++ new⟩ ∧
        (∀ e ∈ new, e.2 = cd + 1 ∧ (urlparse e.1).netloc = sd) ∧
        (normSet ++ new.map entryKey).Nodup := by
  intro hrefs
  induction hrefs with
  | nil =>
    intro queue normSet enq hnd
    exact ⟨[], by simp [enqueueLinks], by simp, by simpa using hnd⟩
  | cons href hs ih =>
    intro queue normSet enq hnd
    by_cases hc : (urlparse (urljoin cu href)).netloc = sd ∧
        normalize_url (urljoin cu href) ∉ normSet ∧ (vl : Int) < mp
    · have hnd' : (normSet ++ [normalize_url (urljoin cu href)]).Nodup := by
        simp only [List.nodup_append, List.nodup_cons, List.nodup_nil, List.disjoint_singleton]
        exact ⟨hnd, by simp, hc.2.1⟩
      obtain ⟨new, heq, hprops, hnodup⟩ := ih (queue ++ [(urljoin cu href, cd + 1)])
        (normSet ++ [normalize_url (urljoin cu href)])
        (enq ++ [(urljoin cu href, cd + 1)]) hnd'
      refine ⟨(urljoin cu href, cd + 1) :: new, ?_, ?_, ?_⟩
      · rw [enqueueLinks, if_pos hc, heq]
        simp [entryKey]
      · intro e he
        rcases List.mem_cons.mp he with he | he
        · subst he
          exact ⟨rfl, hc.1⟩
        · exact hprops e he
      · simpa [entryKey] using hnodup
    · obtain ⟨new, heq, hprops, hnodup⟩ := ih queue normSet enq hnd
      exact ⟨new, by rw [enqueueLinks, if_neg hc]; exact heq, hprops, hnodup⟩

/-- An entry that passed the depth check is either recorded without link
harvest (PDF or failed render), recorded with link harvest (HTML), or kills
the crawl with an uncaught exception. -/
theorem planWrite_cases (ora : Oracle) (cfg : Config) (encRes : Except PyExn String)
    (text : String) (links : Option (List String)) :
    (∃ per, planWrite ora cfg encRes text links = IterPlan.record text per links) ∨
    (∃ e, planWrite ora cfg encRes text links = IterPlan.raise e) := by
  rcases encRes with e | fname
  · exact Or.inr ⟨e, rfl⟩
  · by_cases hw : ora.writeOk (pathJoin cfg.output_dir fname)
    · exact Or.inl ⟨[pathJoin cfg.output_dir fname], by rw [planWrite, if_pos hw]⟩
    · exact Or.inr ⟨PyExn.ioError (pathJoin cfg.output_dir fname), by rw [planWrite, if_neg hw]⟩

/-- An entry that passed the depth check is either recorded without link
harvest (PDF or failed render), recorded with link harvest (HTML), or kills
the crawl with an uncaught exception. -/
theorem planFetch_cases (ora : Oracle) (cfg : Config) (u : String) :
    (∃ text per, planFetch ora cfg u = IterPlan.record text per none) ∨
    (∃ text per hrefs, planFetch ora cfg u = IterPlan.record text per (some hrefs)) ∨
    (∃ e, planFetch ora cfg u = IterPlan.raise e) := by
  by_cases hext : get_allowed_extension_from_url u = some "pdf"
  · rw [planFetch, if_pos hext]
    rcases planWrite_cases ora cfg (encode_url_to_filename u "pdf") (ora.pdfText u) none with
      ⟨per, hp⟩ | ⟨e, hp⟩
    · exact Or.inl ⟨_, per, hp⟩
    · exact Or.inr (Or.inr ⟨e, hp⟩)
  · rw [planFetch, if_neg hext]
    rcases hf : ora.fetch u with ⟨rawText, hrefs⟩ | msg
    · rcases planWrite_cases ora cfg
        (match get_allowed_extension_from_url u with
         | some e =>
           if e ≠ "pdf" then encode_url_to_filename u e
           else encode_url_to_filename u "html"
         | none => encode_url_to_filename u "html")
        (if pyStrip (cleanLines rawText) = "" then warningNoText else cleanLines rawText)
        (some hrefs) with ⟨per, hp⟩ | ⟨e, hp⟩
      · exact Or.inr (Or.inl ⟨_, per, hrefs, hp⟩)
      · exact Or.inr (Or.inr ⟨e, hp⟩)
    · exact Or.inl ⟨_, [], rfl⟩

/-! ## The crawl loop invariant -/

/-- Invariant of every reachable crawl state, tying together the bounds, the
dedup discipline, the BFS ordering and the per-iteration ghost records. -/
structure CrawlInv (cfg : Config) (s : CrawlState) : Prop where
  size_ok : s.visited.length = 0 ∨ (s.visited.length : Int) ≤ cfg.max_pages
  keys_nodup : (keysOf s).Nodup
  keys_mem : ∀ k ∈ keysOf s, k ∈ s.normalized_urls
  norm_eq : s.normalized_urls =
    normalize_url cfg.start_url :: (enqueuedOf s.trace).map entryKey
  norm_nodup : s.normalized_urls.Nodup
  depth_sorted : (depthsOf s).Pairwise (· ≤ ·)
  depth_spread : ∀ x ∈ s.to_visit.map Prod.snd, ∀ y ∈ s.to_visit.map Prod.snd, x ≤ y + 1
  skip_iff : ∀ it ∈ s.trace, it.skipped = true ↔ it.depth > cfg.max_depth
  skip_empty : ∀ it ∈ s.trace, it.skipped = true →
    it.recorded = none ∧ it.persisted = [] ∧ it.enqueued = []
  enq_host : ∀ it ∈ s.trace, ∀ e ∈ it.enqueued,
    (urlparse e.1).netloc = (urlparse cfg.start_url).netloc
  enq_depth : ∀ it ∈ s.trace, ∀ e ∈ it.enqueued, e.2 = it.depth + 1
  skip_fresh : ∀ t1 it t2, s.trace = t1 ++ it :: t2 → it.skipped = true →
    ∀ it2 ∈ t2, iterKey it2 ≠ iterKey it ∧ ∀ e ∈ it2.enqueued, entryKey e ≠ iterKey it

theorem inv_init (cfg : Config) : CrawlInv cfg (initState cfg) := by
  refine ⟨Or.inl rfl, ?_, ?_, ?_, ?_, ?_, ?_, ?_, ?_, ?_, ?_, ?_⟩
  · simp [initState, keysOf]
  · intro k hk
    simpa [initState, keysOf, entryKey] using hk
  · simp [initState, enqueuedOf]
  · simp [initState]
  · simp [initState, depthsOf]
  · intro x hx y hy
    simp [initState] at hx hy
    omega
  · intro it hit
    simp [initState] at hit
  · intro it hit
    simp [initState] at hit
  · intro it hit
    simp [initState] at hit
  · intro it hit
    simp [initState] at hit
  · intro t1 it t2 hdec
    exact absurd hdec (by simp [initState])

theorem keysOf_shift (s : CrawlState) (u : String) (d : Int) (rest : List (String × Int))
    (hsv : s.to_visit = (u, d) :: rest) (it : IterRec) (hu : it.url = u)
    (v' : List (String × String)) (ns : List String) :
    keysOf ⟨v', rest, ns, s.trace ++ [it]⟩ = keysOf s := by
  simp [keysOf, hsv, iterKey, entryKey, hu]

theorem depthsOf_shift (s : CrawlState) (u : String) (d : Int) (rest : List (String × Int))
    (hsv : s.to_visit = (u, d) :: rest) (it : IterRec) (hd : it.depth = d)
    (v' : List (String × String)) (ns : List String) :
    depthsOf ⟨v', rest, ns, s.trace ++ [it]⟩ = depthsOf s := by
  simp [depthsOf, hsv, hd]

theorem nodup_shift_append {α : Type} (A B K N : List α) (nu : α)
    (hpre : (A ++ nu :: B).Nodup)
    (hmem : ∀ k ∈ A ++ nu :: B, k ∈ N)
    (hK : K.Nodup) (hdisj : N.Disjoint K) :
    (A ++ nu :: (B ++ K)).Nodup := by
  rw [List.nodup_middle] at hpre ⊢
  rcases List.nodup_cons.mp hpre with ⟨hnuAB, hAB⟩
  refine List.nodup_cons.mpr ⟨?_, ?_⟩
  · intro hmem'
    rw [← List.append_assoc] at hmem'
    rcases List.mem_append.mp hmem' with h | h
    · exact hnuAB h
    · exact hdisj (hmem nu (by simp)) h
  · rw [← List.append_assoc]
    refine (List.nodup_append).mpr ⟨hAB, hK, ?_⟩
    intro a ha haK
    rcases List.mem_append.mp ha with h | h
    · exact hdisj (hmem a (List.mem_append_left _ h)) haK
    · exact hdisj (hmem a (List.mem_append_right _ (List.mem_cons_of_mem _ h))) haK

theorem pairwise_shift_enqueue (A B newD : List Int) (d : Int)
    (hpre : (A ++ d :: B).Pairwise (· ≤ ·))
    (hspread : ∀ x ∈ d :: B, ∀ y ∈ d :: B, x ≤ y + 1)
    (hnew : ∀ x ∈ newD, x = d + 1) :
    ((A ++ [d]) ++ (B ++ newD)).Pairwise (· ≤ ·) ∧
    (∀ x ∈ B ++ newD, ∀ y ∈ B ++ newD, x ≤ y + 1) := by
  rcases List.pairwise_append.mp hpre with ⟨pA, pdB, hcross⟩
  rcases List.pairwise_cons.mp pdB with ⟨hdB, pB⟩
  have hBd1 : ∀ b ∈ B, b ≤ d + 1 := fun b hb =>
    hspread b (List.mem_cons_of_mem _ hb) d (List.mem_cons_self _ _)
  constructor
  · have hshape : (A ++ [d]) ++ (B ++ newD) = A ++ d :: (B ++ newD) := by simp
    rw [hshape]
    refine List.pairwise_append.mpr ⟨pA, ?_, ?_⟩
    · refine List.pairwise_cons.mpr ⟨?_, ?_⟩
      · intro y hy
        rcases List.mem_append.mp hy with h | h
        · exact hdB y h
        · have := hnew y h
          omega
      · refine List.pairwise_append.mpr ⟨pB, pairwise_le_of_const _ _ hnew, ?_⟩
        intro b hb y hy
        have h1 := hBd1 b hb
        have h2 := hnew y hy
        omega
    · intro a ha y hy
      have had : a ≤ d := hcross a ha d (List.mem_cons_self _ _)
      rcases List.mem_cons.mp hy with rfl | hy
      · exact had
      · rcases List.mem_append.mp hy with h | h
        · exact hcross a ha y (List.mem_cons_of_mem _ h)
        · have := hnew y h
          omega
  · intro x hx y hy
    rcases List.mem_append.mp hx with hx | hx <;> rcases List.mem_append.mp hy with hy | hy
    · exact hspread x (List.mem_cons_of_mem _ hx) y (List.mem_cons_of_mem _ hy)
    · have h1 := hBd1 x hx
      have h2 := hnew y hy
      omega
    · have h1 := hnew x hx
      have h2 := hdB y hy
      omega
    · have h1 := hnew x hx
      have h2 := hnew y hy
      omega

/-- Preservation for an iteration that enqueues nothing (depth skip, PDF,
failed render, or an aborting iteration): the state keeps the queue tail and
the normalized set, and records one more `IterRec`. -/
theorem inv_step_simple (cfg : Config) (s : CrawlState) (u : String) (d : Int)
    (rest : List (String × Int)) (visited' : List (String × String)) (it : IterRec)
    (hInv : CrawlInv cfg s) (hsv : s.to_visit = (u, d) :: rest)
    (hlen : (s.visited.length : Int) < cfg.max_pages)
    (hvlen : visited'.length ≤ s.visited.length + 1)
    (hu : it.url = u) (hd : it.depth = d) (henq : it.enqueued = [])
    (hskip : it.skipped = true ↔ d > cfg.max_depth)
    (hse : it.skipped = true → it.recorded = none ∧ it.persisted = []) :
    CrawlInv cfg ⟨visited', rest, s.normalized_urls, s.trace ++ [it]⟩ := by
  have hkeys : keysOf ⟨visited', rest, s.normalized_urls, s.trace ++ [it]⟩ = keysOf s :=
    keysOf_shift s u d rest hsv it hu visited' s.normalized_urls
  have hdepths : depthsOf ⟨visited', rest, s.normalized_urls, s.trace ++ [it]⟩ = depthsOf s :=
    depthsOf_shift s u d rest hsv it hd visited' s.normalized_urls
  refine ⟨?_, ?_, ?_, ?_, ?_, ?_, ?_, ?_, ?_, ?_, ?_, ?_⟩
  · right
    show (visited'.length : Int) ≤ cfg.max_pages
    have h1 : (visited'.length : Int) ≤ (s.visited.length : Int) + 1 := by exact_mod_cast hvlen
    omega
  · rw [hkeys]
    exact hInv.keys_nodup
  · intro k hk
    rw [hkeys] at hk
    exact hInv.keys_mem k hk
  · show s.normalized_urls = _
    rw [enqueuedOf_append]
    simp only [enqueuedOf, henq, List.nil_append, List.append_nil]
    exact hInv.norm_eq
  · exact hInv.norm_nodup
  · rw [hdepths]
    exact hInv.depth_sorted
  · intro x hx y hy
    have hx' : x ∈ s.to_visit.map Prod.snd := by
      rw [hsv, List.map_cons]
      exact List.mem_cons_of_mem _ hx
    have hy' : y ∈ s.to_visit.map Prod.snd := by
      rw [hsv, List.map_cons]
      exact List.mem_cons_of_mem _ hy
    exact hInv.depth_spread x hx' y hy'
  · intro it2 h2
    rcases List.mem_append.mp h2 with h2 | h2
    · exact hInv.skip_iff it2 h2
    · have he : it2 = it := by simpa using h2
      subst he
      rw [hd]
      exact hskip
  · intro it2 h2 hs2
    rcases List.mem_append.mp h2 with h2 | h2
    · exact hInv.skip_empty it2 h2 hs2
    · have he : it2 = it := by simpa using h2
      subst he
      exact ⟨(hse hs2).1, (hse hs2).2, henq⟩
  · intro it2 h2 e he
    rcases List.mem_append.mp h2 with h2 | h2
    · exact hInv.enq_host it2 h2 e he
    · have heq : it2 = it := by simpa using h2
      subst heq
      rw [henq] at he
      cases he
  · intro it2 h2 e he
    rcases List.mem_append.mp h2 with h2 | h2
    · exact hInv.enq_depth it2 h2 e he
    · have heq : it2 = it := by simpa using h2
      subst heq
      rw [henq] at he
      cases he
  · intro t1 it0 t2 hdec hsk0 it2 h2
    have hdec2 : t1 ++ it0 :: t2 = s.trace ++ [it] := hdec.symm
    rcases append_singleton_decomp t1 it0 t2 s.trace it hdec2 with ⟨h0, _, _⟩ | ⟨t2p, ht2, htr⟩
    · subst h0
      cases h2
    · subst ht2
      have hmem0 : it0 ∈ s.trace := by
        rw [htr]
        exact List.mem_append_right _ (List.mem_cons_self _ _)
      rcases List.mem_append.mp h2 with h2a | h2b
      · exact hInv.skip_fresh t1 it0 t2p htr hsk0 it2 h2a
      · have heq : it2 = it := by simpa using h2b
        rw [heq]
        have hkn : (s.trace.map iterKey ++ s.to_visit.map entryKey).Nodup := hInv.keys_nodup
        have hmemq : entryKey (u, d) ∈ s.to_visit.map entryKey := by
          rw [hsv]
          exact List.mem_map_of_mem _ (List.mem_cons_self _ _)
        have hmemt : iterKey it0 ∈ s.trace.map iterKey := List.mem_map_of_mem _ hmem0
        have hne := nodup_append_ne hkn hmemt hmemq
        constructor
        · have hkeyeq : iterKey it = entryKey (u, d) := by simp [iterKey, entryKey, hu]
          rw [hkeyeq]
          exact fun hh => hne hh.symm
        · intro e he
          rw [henq] at he
          cases he

/-- The state carried by a `StepResult`. -/
def outState : StepResult → CrawlState
  | StepResult.next s => s
  | StepResult.raise _ s => s

/-- Preservation for the HTML iteration that records text and harvests
links. -/
theorem inv_step_enqueue (cfg : Config) (s : CrawlState) (u : String) (d : Int)
    (rest : List (String × Int)) (text : String) (per : List String) (hrefs : List String)
    (hInv : CrawlInv cfg s) (hsv : s.to_visit = (u, d) :: rest)
    (hlen : (s.visited.length : Int) < cfg.max_pages)
    (hdm : ¬ d > cfg.max_depth) :
    CrawlInv cfg (outState (applyPlan cfg s u d rest (IterPlan.record text per (some hrefs)))) := by
  obtain ⟨new, heq, hprops, hnodup⟩ := enqueueLinks_spec ((urlparse cfg.start_url).netloc)
    cfg.max_pages (dictInsert s.visited u text).length u d hrefs rest s.normalized_urls []
    hInv.norm_nodup
  have happ : outState (applyPlan cfg s u d rest (IterPlan.record text per (some hrefs))) =
      ⟨dictInsert s.visited u text, rest ++ new, s.normalized_urls ++ new.map entryKey,
        s.trace ++ [⟨u, d, false, some text, per, new⟩]⟩ := by
    simp [applyPlan, outState, heq]
  rw [happ]
  have hKnodup : (new.map entryKey).Nodup := ((List.nodup_append.mp hnodup).2).1
  have hdisjNK : s.normalized_urls.Disjoint (new.map entryKey) :=
    ((List.nodup_append.mp hnodup).2).2
  have hpre : (s.trace.map iterKey ++ normalize_url u :: rest.map entryKey).Nodup := by
    have h := hInv.keys_nodup
    unfold keysOf at h
    rw [hsv] at h
    simpa [entryKey] using h
  have hmemN : ∀ k ∈ s.trace.map iterKey ++ normalize_url u :: rest.map entryKey,
      k ∈ s.normalized_urls := by
    intro k hk
    apply hInv.keys_mem
    unfold keysOf
    rw [hsv]
    simpa [entryKey] using hk
  have hnewD : ∀ x ∈ new.map Prod.snd, x = d + 1 := by
    intro x hx
    rcases List.mem_map.mp hx with ⟨e, he, rfl⟩
    exact (hprops e he).1
  have hps : (s.trace.map IterRec.depth ++ d :: rest.map Prod.snd).Pairwise (· ≤ ·) := by
    have h := hInv.depth_sorted
    unfold depthsOf at h
    rw [hsv] at h
    simpa using h
  have hsp : ∀ x ∈ d :: rest.map Prod.snd, ∀ y ∈ d :: rest.map Prod.snd, x ≤ y + 1 := by
    have h := hInv.depth_spread
    rw [hsv, List.map_cons] at h
    exact h
  have hpair := pairwise_shift_enqueue (s.trace.map IterRec.depth) (rest.map Prod.snd)
    (new.map Prod.snd) d hps hsp hnewD
  refine ⟨?_, ?_, ?_, ?_, ?_, ?_, ?_, ?_, ?_, ?_, ?_, ?_⟩
  · right
    show ((dictInsert s.visited u text).length : Int) ≤ cfg.max_pages
    have h1 := dictInsert_length_le s.visited u text
    have h2 : ((dictInsert s.visited u text).length : Int) ≤ (s.visited.length : Int) + 1 := by
      exact_mod_cast h1
    omega
  · show (keysOf _).Nodup
    have hsh : keysOf (⟨dictInsert s.visited u text, rest ++ new,
        s.normalized_urls ++ new.map entryKey,
        s.trace ++ [⟨u, d, false, some text, per, new⟩]⟩ : CrawlState) =
        s.trace.map iterKey ++ normalize_url u :: (rest.map entryKey ++ new.map entryKey) := by
      simp [keysOf, iterKey, entryKey]
    rw [hsh]
    exact nodup_shift_append _ _ _ _ _ hpre hmemN hKnodup hdisjNK
  · intro k hk
    have hsh : keysOf (⟨dictInsert s.visited u text, rest ++ new,
        s.normalized_urls ++ new.map entryKey,
        s.trace ++ [⟨u, d, false, some text, per, new⟩]⟩ : CrawlState) =
        s.trace.map iterKey ++ normalize_url u :: (rest.map entryKey ++ new.map entryKey) := by
      simp [keysOf, iterKey, entryKey]
    rw [hsh] at hk
    show k ∈ s.normalized_urls ++ new.map entryKey
    rcases List.mem_append.mp hk with hk | hk
    · exact List.mem_append_left _ (hmemN k (List.mem_append_left _ hk))
    · rcases List.mem_cons.mp hk with rfl | hk
      · exact List.mem_append_left _ (hmemN _ (by simp))
      · rcases List.mem_append.mp hk with hk | hk
        · exact List.mem_append_left _
            (hmemN k (List.mem_append_right _ (List.mem_cons_of_mem _ hk)))
        · exact List.mem_append_right _ hk
  · show s.normalized_urls ++ new.map entryKey = _
    rw [hInv.norm_eq, enqueuedOf_append]
    simp [enqueuedOf]
  · exact hnodup
  · show (depthsOf _).Pairwise (· ≤ ·)
    have hsh : depthsOf (⟨dictInsert s.visited u text, rest ++ new,
        s.normalized_urls ++ new.map entryKey,
        s.trace ++ [⟨u, d, false, some text, per, new⟩]⟩ : CrawlState) =
        (s.trace.map IterRec.depth ++ [d]) ++ (rest.map Prod.snd ++ new.map Prod.snd) := by
      simp [depthsOf]
    rw [hsh]
    exact hpair.1
  · intro x hx y hy
    have hx' : x ∈ rest.map Prod.snd ++ new.map Prod.snd := by simpa using hx
    have hy' : y ∈ rest.map Prod.snd ++ new.map Prod.snd := by simpa using hy
    exact hpair.2 x hx' y hy'
  · intro it2 h2
    rcases List.mem_append.mp h2 with h2 | h2
    · exact hInv.skip_iff it2 h2
    · have heq2 : it2 = ⟨u, d, false, some text, per, new⟩ := by simpa using h2
      rw [heq2]
      simp [hdm]
  · intro it2 h2 hs2
    rcases List.mem_append.mp h2 with h2 | h2
    · exact hInv.skip_empty it2 h2 hs2
    · have heq2 : it2 = ⟨u, d, false, some text, per, new⟩ := by simpa using h2
      rw [heq2] at hs2
      cases hs2
  · intro it2 h2 e he
    rcases List.mem_append.mp h2 with h2 | h2
    · exact hInv.enq_host it2 h2 e he
    · have heq2 : it2 = ⟨u, d, false, some text, per, new⟩ := by simpa using h2
      rw [heq2] at he
      exact (hprops e he).2
  · intro it2 h2 e he
    rcases List.mem_append.mp h2 with h2 | h2
    · exact hInv.enq_depth it2 h2 e he
    · have heq2 : it2 = ⟨u, d, false, some text, per, new⟩ := by simpa using h2
      rw [heq2] at he ⊢
      exact (hprops e he).1
  · intro t1 it0 t2 hdec hsk0 it2 h2
    have hdec2 : t1 ++ it0 :: t2 = s.trace ++ [⟨u, d, false, some text, per, new⟩] := hdec.symm
    rcases append_singleton_decomp t1 it0 t2 s.trace _ hdec2 with ⟨h0, _, _⟩ | ⟨t2p, ht2, htr⟩
    · subst h0
      cases h2
    · subst ht2
      have hmem0 : it0 ∈ s.trace := by
        rw [htr]
        exact List.mem_append_right _ (List.mem_cons_self _ _)
      have hmem0ns : iterKey it0 ∈ s.normalized_urls :=
        hmemN _ (List.mem_append_left _ (List.mem_map_of_mem _ hmem0))
      rcases List.mem_append.mp h2 with h2a | h2b
      · exact hInv.skip_fresh t1 it0 t2p htr hsk0 it2 h2a
      · have heq2 : it2 = ⟨u, d, false, some text, per, new⟩ := by simpa using h2b
        rw [heq2]
        have hkn : (s.trace.map iterKey ++ s.to_visit.map entryKey).Nodup := hInv.keys_nodup
        have hmemq : entryKey (u, d) ∈ s.to_visit.map entryKey := by
          rw [hsv]
          exact List.mem_map_of_mem _ (List.mem_cons_self _ _)
        have hmemt : iterKey it0 ∈ s.trace.map iterKey := List.mem_map_of_mem _ hmem0
        have hne := nodup_append_ne hkn hmemt hmemq
        constructor
        · exact fun hh => hne hh.symm
        · intro e he
          intro hh
          exact hdisjNK hmem0ns (hh ▸ List.mem_map_of_mem entryKey he)

theorem loopCond_iff (cfg : Config) (s : CrawlState) :
    loopCond cfg s = true ↔ s.to_visit ≠ [] ∧ (s.visited.length : Int) < cfg.max_pages := by
  simp [loopCond, List.isEmpty_iff]

theorem planIter_skip_of_deep (ora : Oracle) (cfg : Config) (u : String) (d : Int)
    (h : d > cfg.max_depth) : planIter ora cfg u d = IterPlan.skip := by
  rw [planIter, if_pos h]

theorem planIter_fetch_of_shallow (ora : Oracle) (cfg : Config) (u : String) (d : Int)
    (h : ¬ d > cfg.max_depth) : planIter ora cfg u d = planFetch ora cfg u := by
  rw [planIter, if_neg h]

/-- One loop iteration preserves the invariant (also when it aborts: the
state at the abort still satisfies it). -/
theorem inv_preserved (ora : Oracle) (cfg : Config) (s : CrawlState)
    (hInv : CrawlInv cfg s) (hloop : loopCond cfg s = true) :
    CrawlInv cfg (outState (step ora cfg s)) := by
  obtain ⟨hne, hlen⟩ := (loopCond_iff cfg s).mp hloop
  rcases hsv : s.to_visit with _ | ⟨⟨u, d⟩, rest⟩
  · exact absurd hsv hne
  · have hstep : step ora cfg s = applyPlan cfg s u d rest (planIter ora cfg u d) := by
      unfold step
      rw [hsv]
    rw [hstep]
    by_cases hd : d > cfg.max_depth
    · rw [planIter_skip_of_deep ora cfg u d hd]
      have hout : outState (applyPlan cfg s u d rest IterPlan.skip) =
          ⟨s.visited, rest, s.normalized_urls, s.trace ++ [⟨u, d, true, none, [], []⟩]⟩ := rfl
      rw [hout]
      exact inv_step_simple cfg s u d rest s.visited _ hInv hsv hlen (Nat.le_succ _)
        rfl rfl rfl (by simp [hd]) (fun _ => ⟨rfl, rfl⟩)
    · rw [planIter_fetch_of_shallow ora cfg u d hd]
      rcases planFetch_cases ora cfg u with ⟨text, per, hpf⟩ | ⟨text, per, hrefs, hpf⟩ | ⟨e, hpf⟩
      · rw [hpf]
        have hout : outState (applyPlan cfg s u d rest (IterPlan.record text per none)) =
            ⟨dictInsert s.visited u text, rest, s.normalized_urls,
              s.trace ++ [⟨u, d, false, some text, per, []⟩]⟩ := rfl
        rw [hout]
        exact inv_step_simple cfg s u d rest _ _ hInv hsv hlen
          (dictInsert_length_le s.visited u text) rfl rfl rfl (by simp [hd])
          (fun h => Bool.noConfusion h)
      · rw [hpf]
        exact inv_step_enqueue cfg s u d rest text per hrefs hInv hsv hlen hd
      · rw [hpf]
        have hout : outState (applyPlan cfg s u d rest (IterPlan.raise e)) =
            ⟨s.visited, rest, s.normalized_urls, s.trace ++ [⟨u, d, false, none, [], []⟩]⟩ := rfl
        rw [hout]
        exact inv_step_simple cfg s u d rest _ _ hInv hsv hlen (Nat.le_succ _)
          rfl rfl rfl (by simp [hd]) (fun h => Bool.noConfusion h)

/-- The invariant holds after any number of loop steps. -/
theorem inv_runN (ora : Oracle) (cfg : Config) : ∀ n, CrawlInv cfg (stateOf (runN ora cfg n)) := by
  intro n
  induction n with
  | zero => exact inv_init cfg
  | succ n ih =>
    rcases hr : runN ora cfg n with s | s | ⟨e, s⟩
    · rw [hr] at ih
      by_cases hc : loopCond cfg s = true
      · have h2 := inv_preserved ora cfg s ih hc
        rcases hst : step ora cfg s with s' | ⟨e', s'⟩
        · have hrun : runN ora cfg (n + 1) = Outcome.running s' := by
            simp only [runN, hr, if_pos hc, hst]
          rw [hrun]
          rw [hst] at h2
          exact h2
        · have hrun : runN ora cfg (n + 1) = Outcome.raised e' s' := by
            simp only [runN, hr, if_pos hc, hst]
          rw [hrun]
          rw [hst] at h2
          exact h2
      · have hrun : runN ora cfg (n + 1) = Outcome.finished s := by
          simp only [runN, hr, if_neg hc]
        rw [hrun]
        exact ih
    · have hrun : runN ora cfg (n + 1) = Outcome.finished s := by
        simp only [runN, hr]
      rw [hrun]
      rw [hr] at ih
      exact ih
    · have hrun : runN ora cfg (n + 1) = Outcome.raised e s := by
        simp only [runN, hr]
      rw [hrun]
      rw [hr] at ih
      exact ih

/-- Every reachable crawl state satisfies the invariant. -/
theorem inv_reachable (ora : Oracle) (cfg : Config) (s : CrawlState)
    (h : Reachable ora cfg s) : CrawlInv cfg s := by
  obtain ⟨n, rfl⟩ := h
  exact inv_runN ora cfg n

/-! ## The claims -/

set_option maxRecDepth 40000

/-- C4: the claim says the Filename Encoder always returns a deterministic
filename of length at most 255, hashing an over-long path+query.  The code
(`urlconversion.py`) references `hashlib.md5` without ever importing
`hashlib`, so any URL whose encoded path+query exceeds 255 characters makes
`encode_url_to_filename` raise `NameError` instead of returning a hashed
name: evaluated at `longUrl` (a 314-character URL) the encoder errors, while
on a short URL it does return the deterministic name of length at most 255
that the claim describes. -/
theorem C4_encoder_nameError :
    encode_url_to_filename longUrl "html" = Except.error PyExn.nameError ∧
    pyLen (replaceChar '/' "--" (urlparse longUrl).path) > 255 ∧
    encode_url_to_filename "https://a.com/x" "html" = Except.ok "https-a!com---x.html" ∧
    pyLen "https-a!com---x.html" ≤ 255 :=
  ⟨rfl, by decide, rfl, by decide⟩

/-- C6 counterexample: the exported record for a crawl entry carries the key
`"class"` (the Weaviate class tag), not `"sourceKind"` as the claim states:
looking up `"sourceKind"` in a record finds nothing. -/
theorem C6_export_key_counterexample :
    weaviate_objects [("u", "t")] =
      [[("class", "WebPage"), ("title", ""), ("videoId", ""),
        ("url", "u"), ("transcript", "t")]] ∧
    (toWeaviateObject "u" "t").lookup "sourceKind" = none :=
  ⟨rfl, rfl⟩

/-- C6 (amended): for a CrawlResult of size N the exported array has exactly
N records; each record's constant tag `"WebPage"` sits under the key
`"class"` (not `"sourceKind"`), `title` and `videoId` are empty strings, and
the record built for an entry carries that entry's raw URL and text under
`url` and `transcript`. -/
theorem C6_export_shape_amended (m : List (String × String)) :
    (weaviate_objects m).length = m.length ∧
    (∀ r ∈ weaviate_objects m,
      r.lookup "class" = some "WebPage" ∧ r.lookup "title" = some "" ∧
      r.lookup "videoId" = some "" ∧ r.lookup "sourceKind" = none) ∧
    ∀ p ∈ m, toWeaviateObject p.1 p.2 ∈ weaviate_objects m ∧
      (toWeaviateObject p.1 p.2).lookup "url" = some p.1 ∧
      (toWeaviateObject p.1 p.2).lookup "transcript" = some p.2 := by
  refine ⟨by simp [weaviate_objects], ?_, ?_⟩
  · intro r hr
    rcases List.mem_map.mp hr with ⟨p, _, rfl⟩
    exact ⟨rfl, rfl, rfl, rfl⟩
  · intro p hp
    exact ⟨List.mem_map_of_mem _ hp, rfl, rfl⟩

/-- C6 witness: the amended export shape evaluated on a one-entry result. -/
theorem C6_export_shape_amended_witness :
    (weaviate_objects [("u", "t")]).length = 1 ∧
    (toWeaviateObject "u" "t").lookup "class" = some "WebPage" := by
  have h := C6_export_shape_amended [("u", "t")]
  exact ⟨h.1, ((h.2.1 (toWeaviateObject "u" "t") (by simp [weaviate_objects])).1)⟩

/-- C7 counterexample: the claim (with spec section 4.1) says one trailing
slash is stripped; `normalize_url` calls Python `rstrip`, which strips them
all.  On `"http://a.com/x//"` the code yields `"http://a.com/x"` while the
spec's one-slash canonicalizer yields `"http://a.com/x/"`. -/
theorem C7_one_slash_counterexample :
    normalize_url "http://a.com/x//" = "http://a.com/x" ∧
    canonicalizeSpecOneSlash "http://a.com/x//" = "http://a.com/x/" ∧
    normalize_url "http://a.com/x//" ≠ canonicalizeSpecOneSlash "http://a.com/x//" :=
  ⟨rfl, rfl, by decide⟩

/-- C7 (amended): the URL Canonicalizer strips the fragment, turns an empty
path into `/`, strips EVERY trailing `/` from a non-root path, lower-cases
the entire result, and is total: on every input it agrees with the spec's
algorithm amended to strip all trailing slashes. -/
theorem C7_canonicalizer_amended (url : String) :
    normalize_url url = canonicalizeSpecAllSlashes url := by
  unfold normalize_url canonicalizeSpecAllSlashes
  by_cases h1 : (urlparse url).path = ""
  · simp [h1]
  · simp only [if_neg h1]

/-- C7 witness: the amended canonicalizer equality at a concrete URL with
upper case, a fragment and two trailing slashes. -/
theorem C7_canonicalizer_amended_witness :
    normalize_url "HTTPS://A.com/P//#f" = canonicalizeSpecAllSlashes "HTTPS://A.com/P//#f" :=
  C7_canonicalizer_amended "HTTPS://A.com/P//#f"

/-- C1 counterexample: invoked with `max_pages = -1` the crawl returns a map
of 0 entries, and 0 is not at most -1, so the bound `|CrawlResult| <=
maxPages` fails for a negative `maxPages` (the code never validates the
bound; the loop guard simply never fires). -/
theorem C1_negative_maxPages_counterexample :
    crawl_site_selenium oraTriv cfgNegPages 2 = Except.ok [] ∧
    ¬ ((([] : List (String × String)).length : Int) ≤ cfgNegPages.max_pages) :=
  ⟨rfl, by decide⟩

/-- C1 (amended): in every reachable state of any crawl the CrawlResult map
has at most `max maxPages 0` entries — at most `maxPages` whenever
`maxPages ≥ 0`, the empty map when `maxPages` is negative — and a dequeued
FrontierEntry whose depth exceeds `maxDepth` is never processed: its
iteration records no CrawlResult entry, persists no file and harvests no
links. -/
theorem C1_bounds_amended (ora : Oracle) (cfg : Config) (s : CrawlState)
    (h : Reachable ora cfg s) :
    (s.visited.length : Int) ≤ max cfg.max_pages 0 ∧
    (cfg.max_pages < 0 → s.visited = []) ∧
    ∀ it ∈ s.trace, it.depth > cfg.max_depth →
      it.recorded = none ∧ it.persisted = [] ∧ it.enqueued = [] := by
  have hInv := inv_reachable ora cfg s h
  refine ⟨?_, ?_, ?_⟩
  · rcases hInv.size_ok with h0 | hle
    · rw [h0]
      exact le_max_right _ _
    · exact le_trans hle (le_max_left _ _)
  · intro hneg
    rcases hInv.size_ok with h0 | hle
    · exact List.length_eq_zero.mp h0
    · exfalso
      omega
  · intro it hit hdp
    exact hInv.skip_empty it hit ((hInv.skip_iff it hit).mpr hdp)

/-- C1 witness: the amended bounds evaluated on the main scenario run. -/
theorem C1_bounds_amended_witness :
    ((stateOf (runN oraMain cfgMain 6)).visited.length : Int) ≤ max cfgMain.max_pages 0 ∧
    (cfgMain.max_pages < 0 → (stateOf (runN oraMain cfgMain 6)).visited = []) ∧
    ∀ it ∈ (stateOf (runN oraMain cfgMain 6)).trace, it.depth > cfgMain.max_depth →
      it.recorded = none ∧ it.persisted = [] ∧ it.enqueued = [] :=
  C1_bounds_amended oraMain cfgMain _ ⟨6, rfl⟩

/-- C2: in every reachable state of any crawl, the dequeued entries have
pairwise distinct canonical keys (the scheduler never dequeues two entries
with the same canonical key); the normalized set is duplicate-free, starts
as exactly the canonicalized seed URL before the loop, and always equals
the seed key followed by one key per enqueue event, in order — so a key is
added at most once and, once recorded, no entry with that canonical
identity is ever enqueued again, whatever raw spelling rediscovered it. -/
theorem C2_no_duplicate_processing (ora : Oracle) (cfg : Config) (s : CrawlState)
    (h : Reachable ora cfg s) :
    (s.trace.map iterKey).Nodup ∧
    s.normalized_urls.Nodup ∧
    (initState cfg).normalized_urls = [normalize_url cfg.start_url] ∧
    s.normalized_urls = normalize_url cfg.start_url :: (enqueuedOf s.trace).map entryKey := by
  have hInv := inv_reachable ora cfg s h
  have h2 : (s.trace.map iterKey ++ s.to_visit.map entryKey).Nodup := hInv.keys_nodup
  exact ⟨(List.nodup_append.mp h2).1, hInv.norm_nodup, rfl, hInv.norm_eq⟩

/-- C2 witness: the dedup discipline evaluated on the main scenario run,
where page `y` is discovered both from the seed page and from page `p2`. -/
theorem C2_no_duplicate_processing_witness :
    ((stateOf (runN oraMain cfgMain 6)).trace.map iterKey).Nodup ∧
    (stateOf (runN oraMain cfgMain 6)).normalized_urls.Nodup ∧
    (initState cfgMain).normalized_urls = [normalize_url cfgMain.start_url] ∧
    (stateOf (runN oraMain cfgMain 6)).normalized_urls =
      normalize_url cfgMain.start_url ::
        (enqueuedOf (stateOf (runN oraMain cfgMain 6)).trace).map entryKey :=
  C2_no_duplicate_processing oraMain cfgMain _ ⟨6, rfl⟩

/-- C3: every entry any crawl ever enqueues has netloc exactly equal to the
seed URL's netloc (the scope host), and in the main scenario — scope host
`a.com`, links to `sub.a.com/y`, `b.com/y` and `a.com/y`, the latter
discovered both from the seed page and from page `p2` — the two out-of-scope
links are never enqueued while `https://a.com/y` is enqueued exactly once. -/
theorem C3_scope_enforcement :
    (∀ ora cfg s, Reachable ora cfg s →
      ∀ it ∈ s.trace, ∀ e ∈ it.enqueued,
        (urlparse e.1).netloc = (urlparse cfg.start_url).netloc) ∧
    countEnqueues (stateOf (runN oraMain cfgMain 6)).trace "https://a.com/y" = 1 ∧
    countEnqueues (stateOf (runN oraMain cfgMain 6)).trace "https://sub.a.com/y" = 0 ∧
    countEnqueues (stateOf (runN oraMain cfgMain 6)).trace "https://b.com/y" = 0 := by
  refine ⟨?_, by decide, by decide, by decide⟩
  intro ora cfg s h it hit e he
  exact (inv_reachable ora cfg s h).enq_host it hit e he

/-- C3 witness: the in-scope-only enqueue property evaluated on the main
scenario run. -/
theorem C3_scope_enforcement_witness :
    ∀ it ∈ (stateOf (runN oraMain cfgMain 6)).trace, ∀ e ∈ it.enqueued,
      (urlparse e.1).netloc = (urlparse cfgMain.start_url).netloc :=
  C3_scope_enforcement.1 oraMain cfgMain _ ⟨6, rfl⟩

/-- C8: in every reachable state of any crawl the sequence of dequeued
depths is non-decreasing (all depth-d dequeues happen before any
depth-(d+1) dequeue: breadth-first order, the queue being FIFO), and every
enqueued entry sits one hop below the iteration that discovered it. -/
theorem C8_breadth_first (ora : Oracle) (cfg : Config) (s : CrawlState)
    (h : Reachable ora cfg s) :
    (s.trace.map IterRec.depth).Pairwise (· ≤ ·) ∧
    ∀ it ∈ s.trace, ∀ e ∈ it.enqueued, e.2 = it.depth + 1 := by
  have hInv := inv_reachable ora cfg s h
  have h2 : (s.trace.map IterRec.depth ++ s.to_visit.map Prod.snd).Pairwise (· ≤ ·) :=
    hInv.depth_sorted
  exact ⟨(List.pairwise_append.mp h2).1, hInv.enq_depth⟩

/-- C8 witness: breadth-first dequeue order evaluated on the main scenario
run (depths 0, 1, 1, 2, 2). -/
theorem C8_breadth_first_witness :
    ((stateOf (runN oraMain cfgMain 6)).trace.map IterRec.depth).Pairwise (· ≤ ·) ∧
    ∀ it ∈ (stateOf (runN oraMain cfgMain 6)).trace, ∀ e ∈ it.enqueued,
      e.2 = it.depth + 1 :=
  C8_breadth_first oraMain cfgMain _ ⟨6, rfl⟩

/-- C10: canonical keys are added at enqueue time, so when a dequeued entry
is discarded by the depth check its key is already in (and stays in) the
normalized set; the discarded iteration records nothing and enqueues
nothing, and no later iteration dequeues or enqueues any URL with that
canonical identity — even one rediscovered from a page whose depth would
have allowed it. -/
theorem C10_discarded_key_stays (ora : Oracle) (cfg : Config) (s : CrawlState)
    (h : Reachable ora cfg s) :
    ∀ t1 it t2, s.trace = t1 ++ it :: t2 → it.depth > cfg.max_depth →
      normalize_url it.url ∈ s.normalized_urls ∧
      it.recorded = none ∧ it.enqueued = [] ∧
      ∀ it2 ∈ t2, normalize_url it2.url ≠ normalize_url it.url ∧
        ∀ e ∈ it2.enqueued, normalize_url e.1 ≠ normalize_url it.url := by
  have hInv := inv_reachable ora cfg s h
  intro t1 it t2 hdec hdp
  have hmem : it ∈ s.trace := by
    rw [hdec]
    exact List.mem_append_right _ (List.mem_cons_self _ _)
  have hsk : it.skipped = true := (hInv.skip_iff it hmem).mpr hdp
  have hempty := hInv.skip_empty it hmem hsk
  have hfresh := hInv.skip_fresh t1 it t2 hdec hsk
  refine ⟨?_, hempty.1, hempty.2.2, ?_⟩
  · exact hInv.keys_mem _ (List.mem_append_left _ (List.mem_map_of_mem iterKey hmem))
  · intro it2 h2
    exact ⟨(hfresh it2 h2).1, fun e he => (hfresh it2 h2).2 e he⟩

/-- C10 witness: in the main scenario `https://a.com/z` is enqueued at depth
2, discarded at dequeue (`max_depth = 1`), its key stays in the normalized
set, and the one iteration after the discard concerns a different canonical
key. -/
theorem C10_discarded_key_stays_witness :
    normalize_url "https://a.com/z" ∈ (stateOf (runN oraMain cfgMain 6)).normalized_urls ∧
    ∀ it2 ∈ (stateOf (runN oraMain cfgMain 6)).trace.drop 4,
      normalize_url it2.url ≠ normalize_url "https://a.com/z" := by
  have h := C10_discarded_key_stays oraMain cfgMain _ ⟨6, rfl⟩
    ((stateOf (runN oraMain cfgMain 6)).trace.take 3)
    ⟨"https://a.com/z", 2, true, none, [], []⟩
    ((stateOf (runN oraMain cfgMain 6)).trace.drop 4)
    (by decide) (by decide)
  exact ⟨h.1, fun it2 h2 => (h.2.2.2 it2 h2).1⟩

/-- C5 counterexample: with a file store that rejects the write, the crawl
of `https://x.com/` aborts with an uncaught `OSError` (the function returns
the exception, not a result), and the failed resource has no CrawlResult
entry at all — `visited[url] = text` on line 191 runs only after the
`write_text_file` call on line 187, which is not wrapped in any
try/except. -/
theorem C5_write_failure_halts_counterexample :
    isCrawlOk (crawl_site_selenium oraWriteFail cfgWriteFail 2) = false ∧
    (stateOf (runN oraWriteFail cfgWriteFail 2)).visited = [] ∧
    runN oraWriteFail cfgWriteFail 2 =
      Outcome.raised (PyExn.ioError "o/https-x!com---.html")
        ⟨[], [], ["https://x.com/"], [⟨"https://x.com/", 0, false, none, [], []⟩]⟩ := by
  refine ⟨by decide, by decide, by decide⟩

/-- C5 (amended): a failing persistence write raises an uncaught exception
that halts traversal: the iteration aborts before recording the resource,
so the state at the abort carries exactly the CrawlResult entries of the
earlier iterations (nothing is invalidated, but the claim's "traversal
continues" is false — the raised outcome is absorbing and the whole
`crawl_site_selenium` call returns the error). -/
theorem C5_write_failure_behavior (ora : Oracle) (cfg : Config) (s s2 : CrawlState)
    (e : PyExn) (n m : Nat)
    (hstep : step ora cfg s = StepResult.raise e s2)
    (hrun : runN ora cfg n = Outcome.raised e s2) (hnm : n ≤ m) :
    s2.visited = s.visited ∧ s2.normalized_urls = s.normalized_urls ∧
    runN ora cfg m = Outcome.raised e s2 ∧
    crawl_site_selenium ora cfg m = Except.error (e, s2) := by
  have hvis : s2.visited = s.visited ∧ s2.normalized_urls = s.normalized_urls := by
    rcases hsv : s.to_visit with _ | ⟨⟨u, d⟩, rest⟩
    · simp only [step, hsv] at hstep
      exact StepResult.noConfusion hstep
    · simp only [step, hsv] at hstep
      rcases hpi : planIter ora cfg u d with _ | ⟨text, per, _ | hrefs⟩ | e2
      · rw [hpi] at hstep
        simp only [applyPlan] at hstep
        exact StepResult.noConfusion hstep
      · rw [hpi] at hstep
        simp only [applyPlan] at hstep
        exact StepResult.noConfusion hstep
      · rw [hpi] at hstep
        simp only [applyPlan] at hstep
        exact StepResult.noConfusion hstep
      · rw [hpi] at hstep
        simp only [applyPlan, StepResult.raise.injEq] at hstep
        obtain ⟨-, hs2eq⟩ := hstep
        rw [← hs2eq]
        exact ⟨rfl, rfl⟩
  have habs : ∀ m2, n ≤ m2 → runN ora cfg m2 = Outcome.raised e s2 := by
    intro m2 hm2
    induction m2 with
    | zero =>
      have h0 : n = 0 := Nat.le_zero.mp hm2
      rw [← h0]
      exact hrun
    | succ k ih =>
      by_cases hk : n ≤ k
      · simp only [runN, ih hk]
      · have hnk : n = k + 1 := by omega
        rw [← hnk]
        exact hrun
  have hm := habs m hnm
  refine ⟨hvis.1, hvis.2, hm, ?_⟩
  rw [crawl_site_selenium, hm]

/-- C5 witness: the abort behavior applied to the concrete failing-store
run: the state at the abort keeps the (empty) pre-abort CrawlResult map, the
raised outcome persists, and the crawl returns the I/O error. -/
theorem C5_write_failure_behavior_witness :
    (⟨[], [], ["https://x.com/"],
      [⟨"https://x.com/", 0, false, none, [], []⟩]⟩ : CrawlState).visited =
      (initState cfgWriteFail).visited ∧
    (⟨[], [], ["https://x.com/"],
      [⟨"https://x.com/", 0, false, none, [], []⟩]⟩ : CrawlState).normalized_urls =
      (initState cfgWriteFail).normalized_urls ∧
    runN oraWriteFail cfgWriteFail 3 =
      Outcome.raised (PyExn.ioError "o/https-x!com---.html")
        ⟨[], [], ["https://x.com/"], [⟨"https://x.com/", 0, false, none, [], []⟩]⟩ ∧
    crawl_site_selenium oraWriteFail cfgWriteFail 3 =
      Except.error (PyExn.ioError "o/https-x!com---.html",
        ⟨[], [], ["https://x.com/"], [⟨"https://x.com/", 0, false, none, [], []⟩]⟩) :=
  C5_write_failure_behavior oraWriteFail cfgWriteFail (initState cfgWriteFail)
    ⟨[], [], ["https://x.com/"], [⟨"https://x.com/", 0, false, none, [], []⟩]⟩
    (PyExn.ioError "o/https-x!com---.html") 1 3 (by decide) (by decide) (by decide)

/-- C9 counterexample: an invalid configuration is not a fatal error at
crawl start.  With `max_pages = -2` the crawl returns a normal (empty)
result instead of raising anything, and with the seed `"not a url"` the
crawl runs normally, recording the seed's failed load as an ordinary
diagnostic entry. -/
theorem C9_no_fatal_config_error_counterexample :
    cfgNegPages9.max_pages < 0 ∧
    crawl_site_selenium oraTriv cfgNegPages9 2 = Except.ok [] ∧
    isCrawlOk (crawl_site_selenium oraBadSeed cfgBadSeed 3) = true ∧
    (stateOf (runN oraBadSeed cfgBadSeed 3)).visited =
      [("not a url", "Error loading not a url with Selenium: boom")] :=
  ⟨by decide, rfl, by decide, by decide⟩

/-- C9 (amended): `crawl_site_selenium` performs no configuration
validation.  A negative `maxPages` is not an error: the loop guard is false
from the start, so the crawl finishes immediately in its initial state —
nothing is dequeued, fetched or recorded — and returns the empty map
normally. -/
theorem C9_no_config_validation (ora : Oracle) (cfg : Config) (n : Nat)
    (hneg : cfg.max_pages < 0) (hn : 1 ≤ n) :
    runN ora cfg n = Outcome.finished (initState cfg) ∧
    crawl_site_selenium ora cfg n = Except.ok [] ∧
    (initState cfg).trace = [] := by
  have hlc : loopCond cfg (initState cfg) = false := by
    have hnl : ¬ (((initState cfg).visited.length : Int) < cfg.max_pages) := by
      show ¬ ((([] : List (String × String)).length : Int) < cfg.max_pages)
      simp
      omega
    simp [loopCond, hnl]
  have hrun : ∀ m, runN ora cfg (m + 1) = Outcome.finished (initState cfg) := by
    intro m
    induction m with
    | zero => simp [runN, hlc]
    | succ k ih =>
      have hs : runN ora cfg (k + 1 + 1) =
          (match runN ora cfg (k + 1) with
            | Outcome.running s =>
              if loopCond cfg s then
                match step ora cfg s with
                | StepResult.next s' => Outcome.running s'
                | StepResult.raise e s' => Outcome.raised e s'
              else Outcome.finished s
            | o => o) := rfl
      rw [hs, ih]
  obtain ⟨m, rfl⟩ : ∃ m, n = m + 1 := ⟨n - 1, by omega⟩
  refine ⟨hrun m, ?_, rfl⟩
  rw [crawl_site_selenium, hrun m]
  rfl

/-- C9 witness: the no-validation behavior evaluated at the concrete
negative-bound configuration. -/
theorem C9_no_config_validation_witness :
    runN oraTriv cfgNegPages9 2 = Outcome.finished (initState cfgNegPages9) ∧
    crawl_site_selenium oraTriv cfgNegPages9 2 = Except.ok [] ∧
    (initState cfgNegPages9).trace = [] :=
  C9_no_config_validation oraTriv cfgNegPages9 2 (by decide) (by decide)
